import Mathlib

/-!
Shallow embedding of `jsonlines2tei.py`: a converter from the jsonlines
coreference corpus format to pairs of TEI-URS XML documents.  Every
definition below is translated from the Python source; machine behaviour
(list indexing errors, Python slice clamping, set semantics, f-string
interpolation) is modelled explicitly.  Fallible operations (indexing a
possibly-empty list, unpacking a mention) return `Option`.
-/

namespace Jsonlines2tei

/-- A mention as it appears in the JSON input: a raw array of integers,
normally `[start, end]` (inclusive 0-based global token indices). -/
abbrev Mention := List Nat

/-- A coreference cluster: an ordered list of mentions. -/
abbrev Cluster := List Mention

/-- One parsed jsonlines document.  `pos` and `paragraphs` are optional
keys; `speakers` is part of the schema but unused by the converter.
A paragraph marker is a pair `(flag, global-token-index)`; the code only
reads the second component (`p[1]`). -/
structure Doc where
  doc_key : String
  sentences : List (List String)
  pos : Option (List (List String)) := none
  paragraphs : Option (List (Nat × Nat)) := none
  speakers : Option (List (List String)) := none
  clusters : List Cluster
deriving DecidableEq, Repr

/-- Python `" ".join` over a list of strings. -/
def spaceJoin (l : List String) : String := String.intercalate " " l

/-- Python slice `l[a:b]` for non-negative `a`, `b`: the elements at
indices `a, …, b-1`, clamped to the list (never an error). -/
def pySlice (l : List String) (a b : Nat) : List String :=
  (l.drop a).take (b - a)

/-- The flattened token stream:
`[tok for sent in doc['sentences'] for tok in sent]`. -/
def docTokens (doc : Doc) : List String := doc.sentences.flatten

/-- Candidate name in FIRST mode:
`" ".join(tokens[cluster[0][0]:cluster[0][1]+1])`.
`cluster[0]` raises `IndexError` on an empty cluster, and `[0]`/`[1]` on
the mention raise when the mention array is too short; both are modelled
as `none`. -/
def candidateFirst (toks : List String) (cluster : Cluster) : Option String :=
  match cluster.head? with
  | none => none
  | some m =>
    match m.get? 0, m.get? 1 with
    | some a, some b => some (spaceJoin (pySlice toks a (b + 1)))
    | _, _ => none

/-- Stable insertion of a mention into a list already sorted by descending
`len`, placing `m` after every earlier element with a strictly larger
length and before every element with length ≤ its own — exactly the order
produced by Python's stable `sorted(cluster, key=lambda x: len(x),
reverse=True)`. -/
def insertByLenDesc (m : Mention) : Cluster → Cluster
  | [] => [m]
  | y :: ys => if m.length < y.length then y :: insertByLenDesc m ys else m :: y :: ys

/-- Stable sort by descending `len(x)`, modelling
`sorted(cluster, key=lambda x: len(x), reverse=True)`.  A stable sort is
uniquely determined by the key order together with stability, so this
insertion sort agrees with Python's Timsort. -/
def sortedByLenDesc : Cluster → Cluster
  | [] => []
  | m :: rest => insertByLenDesc m (sortedByLenDesc rest)

/-- Candidate name in LONGEST mode (`get_longest` in the source):
sort the cluster by descending `len(x)` (note: `x` is the raw mention
array), then slice the tokens with the head mention's bounds. -/
def candidateLongest (toks : List String) (cluster : Cluster) : Option String :=
  match (sortedByLenDesc cluster).head? with
  | none => none
  | some m =>
    match m.get? 0, m.get? 1 with
    | some a, some b => some (spaceJoin (pySlice toks a (b + 1)))
    | _, _ => none

/-- Evaluate `f` over a list, failing as soon as one element fails —
the behaviour of a Python comprehension in which an element raises. -/
def optionMap (f : α → Option β) : List α → Option (List β)
  | [] => some []
  | a :: l =>
    match f a, optionMap f l with
    | some b, some bs => some (b :: bs)
    | _, _ => none

/-- The inner `while name not in used:` loop of `_get_refnames`, with an
explicit fuel bound.  The loop is only ever entered under the guard
`if name in used`, whose negation is exactly the loop condition, so the
body is unreachable and the result is `name` for every fuel value. -/
def whileAppend (used : List String) : Nat → String → Nat → String
  | 0, name, _ => name
  | fuel + 1, name, counter =>
    if name ∈ used then name
    else whileAppend used fuel (name ++ toString counter) (counter + 1)

/-- The deduplication pass of `_get_refnames`: iterate over the candidate
names in cluster order with a set `used` of already-seen names; when the
name is already used run the `while` loop (see `whileAppend`), store the
resulting name, and add it to `used`. -/
def dedupPass (used : List String) : List String → List String
  | [] => []
  | name :: rest =>
    let name2 := if name ∈ used then whileAppend used (used.length + 1) name 1 else name
    name2 :: dedupPass (used.insert name2) rest

/-- `_get_refnames(doc, first)`: candidate names per cluster (the dict is
keyed by `id(cluster)` and iterated in insertion order, i.e. cluster
order, so it is modelled positionally), then the deduplication pass.
`none` models the `IndexError` raised while building the candidates. -/
def getRefnames (doc : Doc) (first : Bool) : Option (List String) :=
  let toks := docTokens doc
  let cands :=
    if first then optionMap (candidateFirst toks) doc.clusters
    else optionMap (candidateLongest toks) doc.clusters
  cands.map (dedupPass [])

/-- One character of `xml.sax.saxutils.escape`, as the character list it
contributes to the output: `&` becomes `&amp;`, `<` becomes `&lt;`, `>`
becomes `&gt;`, anything else passes through.  (The Python function
performs the three `str.replace` calls with `&` first, which is
equivalent to this single character-wise pass.) -/
def escapeCharL (c : Char) : List Char :=
  if c = '&' then ['&', 'a', 'm', 'p', ';']
  else if c = '<' then ['&', 'l', 't', ';']
  else if c = '>' then ['&', 'g', 't', ';']
  else [c]

/-- `xml.sax.saxutils.escape` with its default entity table. -/
def escape (s : String) : String := String.mk (s.data.flatMap escapeCharL)

/-- The `<txm:form>` element wrapping a token's (already escaped) text. -/
def formElem (content : String) : String :=
  "<txm:form>" ++ content ++ "</txm:form>"

/-- The `<txm:ana>` POS element wrapping an (already escaped) tag. -/
def anaElem (content : String) : String :=
  "<txm:ana resp=\"#txm\" type=\"#frpos\">" ++ content ++ "</txm:ana>"

/-- The `<w>` element emitted for one token: global index `t`, sentence
index `s`, position `t_local` inside the sentence.  When the document has
a `pos` key the parallel tag is rendered too; the input contract (spec
§3) makes `pos` the same shape as `sentences`, so the parallel lookup is
modelled with a total default. -/
def wPiece (posOpt : Option (List (List String))) (s t_local t : Nat)
    (token : String) : String :=
  "<w id=\"w_export_" ++ toString t ++ "\" n=\"" ++ toString t ++ "\">"
    ++ formElem (escape token)
    ++ (match posOpt with
        | some pos => anaElem (escape ((pos.getD s []).getD t_local ""))
        | none => "")
    ++ "</w>"

/-- The inner token loop of `_build_text` for one sentence, with the loop
variables explicit: each emitted `<w>` element is paired with the global
token counter `t` at which it was emitted (`t` is also interpolated into
the element itself). -/
def tokenPieces (posOpt : Option (List (List String))) (s : Nat) :
    List String → Nat → Nat → List (Nat × String)
  | [], _, _ => []
  | tok :: rest, t_local, t =>
    (t, wPiece posOpt s t_local t tok) :: tokenPieces posOpt s rest (t_local + 1) (t + 1)

/-- The set `pars = \x7bp[1] for p in doc['paragraphs']\x7d` when the key is
present: the distinct boundary token indices.  `List.dedup` keeps the
first occurrence of each value, so membership and cardinality agree with
the Python set. -/
def parsOf (doc : Doc) : Option (List Nat) :=
  doc.paragraphs.map (fun ps => (ps.map (fun p => p.2)).dedup)

/-- The paragraph-break test performed after a sentence: with boundary
data, break when `t-1 ∈ pars` and `p < len(pars)-1`, where `t` is the
token counter after the sentence.  Python computes `t-1 = -1` when
`t = 0`, which is never in the set of indices, hence the `0 < t` guard
accompanying the truncated subtraction. -/
def brkCond (pars : Option (List Nat)) (t p : Nat) : Bool :=
  match pars with
  | some ps => decide (0 < t ∧ (t - 1) ∈ ps ∧ p < ps.length - 1)
  | none => false

/-- The sentence loop of `_build_text`, with its loop state explicit: for
each sentence it records the sentence index, the token pieces of the
inner loop, and whether a `</p><p>` break was emitted after the
sentence.  `t` is the running global token counter and `p` the number of
paragraph breaks emitted so far. -/
def sentPieces (posOpt : Option (List (List String))) (pars : Option (List Nat)) :
    List (List String) → Nat → Nat → Nat → List (Nat × List (Nat × String) × Bool)
  | [], _, _, _ => []
  | sent :: rest, s, t, p =>
    let tp := tokenPieces posOpt s sent 0 t
    let t2 := t + sent.length
    let brk := brkCond pars t2 p
    (s, tp, brk) :: sentPieces posOpt pars rest (s + 1) t2 (if brk then p + 1 else p)

/-- Rendering of one sentence record: the `<s>` element around the
concatenated `<w>` elements, followed by `</p><p>` when the paragraph
check fired. -/
def renderSent (rec : Nat × List (Nat × String) × Bool) : String :=
  "<s n=\"" ++ toString rec.1 ++ "\">" ++ String.join (rec.2.1.map (fun x => x.2))
    ++ "</s>" ++ (if rec.2.2 then "</p><p>" else "")

/-- `_build_text(doc)`: the `<text>` root, an opening `<p>`, the sentence
loop, and the closing tags. -/
def buildText (doc : Doc) : String :=
  "<text>" ++ "<p>"
    ++ String.join ((sentPieces doc.pos (parsOf doc) doc.sentences 0 0 0).map renderSent)
    ++ "</p>" ++ "</text>"

/-- Sum of the lengths of a list of sentences (number of tokens). -/
def sumLen (sents : List (List String)) : Nat := (sents.map List.length).sum

/-- The global token counter value interpolated into the id of the `<w>`
element for the token at sentence `s`, local position `t_local`, read off
the sentence loop; `none` when there is no such token. -/
def wIdAt (doc : Doc) (s t_local : Nat) : Option Nat :=
  match (sentPieces doc.pos (parsOf doc) doc.sentences 0 0 0).get? s with
  | some x => (x.2.1.get? t_local).map (fun y => y.1)
  | none => none

/-- Whether the Text Renderer emitted a paragraph break after sentence
`s`, read off the sentence loop. -/
def brkAt (doc : Doc) (s : Nat) : Option Bool :=
  ((sentPieces doc.pos (parsOf doc) doc.sentences 0 0 0).get? s).map (fun x => x.2.2)

/-- Number of paragraph breaks emitted after the sentences before `s`. -/
def breaksBefore (doc : Doc) (s : Nat) : Nat :=
  ((sentPieces doc.pos (parsOf doc) doc.sentences 0 0 0).take s).countP (fun x => x.2.2)

/-- The `<w>` element string emitted for the token at sentence `s`,
local position `t_local`, read off the sentence loop. -/
def wPieceAt (doc : Doc) (s t_local : Nat) : Option String :=
  match (sentPieces doc.pos (parsOf doc) doc.sentences 0 0 0).get? s with
  | some x => (x.2.1.get? t_local).map (fun y => y.2)
  | none => none

/-- The `<span>` element emitted for mention number `i` with raw bounds
`a`, `b`: `from`/`to` point at the Text Renderer's token ids
`w_export_a` and `w_export_b`. -/
def mentionSpan (i a b : Nat) : String :=
  "<span id=\"u-MENTION-" ++ toString i ++ "\" from=\"text:w_export_" ++ toString a
    ++ "\" to=\"text:w_export_" ++ toString b ++ "\" ana=\"#u-MENTION-" ++ toString i
    ++ "-fs\"/>"

/-- The value the source interpolates into every `REF` feature.  The
second line of each `div += ...` statement lacks the `f` prefix
(`'\x7bescape(names[id(cluster)])\x7d</string></f>'` is a plain string
literal), so the braces and the expression inside them are emitted
verbatim instead of the referent name. -/
def refLiteral : String := "\x7bescape(names[id(cluster)])\x7d"

/-- The per-mention feature structure emitted for mention number `i`. -/
def mentionFs (i : Nat) : String :=
  "<fs id=\"u-MENTION-" ++ toString i ++ "-fs\"><f name=\"REF\"><string>"
    ++ refLiteral ++ "</string></f></fs>"

/-- The inner loop of the Unit pass of `_build_urs` for one cluster,
starting at global mention counter `m0`: each mention is unpacked as
`for start, end in cluster` (a `ValueError` unless the array has exactly
two elements, modelled as `none`) and contributes its counter value, its
`<span>` element and its `<fs>` element. -/
def clusterSpanPieces (m0 : Nat) : Cluster → Option (List (Nat × String × String))
  | [] => some []
  | m :: rest =>
    match m with
    | [a, b] =>
      (clusterSpanPieces (m0 + 1) rest).map
        (fun ps => (m0, mentionSpan m0 a b, mentionFs m0) :: ps)
    | _ => none

/-- The Unit pass of `_build_urs` over all clusters: the global mention
counter `m` runs over clusters without resetting. -/
def allSpanPieces (m0 : Nat) : List Cluster → Option (List (List (Nat × String × String)))
  | [] => some []
  | c :: cs =>
    match clusterSpanPieces m0 c with
    | none => none
    | some p =>
      match allSpanPieces (m0 + c.length) cs with
      | none => none
      | some ps => some (p :: ps)

/-- The `target` attribute of a chain:
`" ".join(f'#u-MENTION-\x7bm+offset\x7d' for m in range(len(cluster)))`. -/
def chainTarget (offset len : Nat) : String :=
  String.intercalate " "
    ((List.range len).map (fun m => "#u-MENTION-" ++ toString (m + offset)))

/-- The `<link>` element emitted for chain `c`. -/
def chainLink (c : Nat) (target : String) : String :=
  "<link id=\"s-CHAINE-" ++ toString c ++ "\" target=\"" ++ target
    ++ "\" ana=\"#s-CHAINE-" ++ toString c ++ "-fs\"/>"

/-- The feature structure emitted for chain `c` over a cluster of `len`
mentions: the `REF` feature again carries the verbatim literal (same
missing `f` prefix), while `NB MAILLONS` is a real interpolation of
`len(cluster)`. -/
def chainFs (c len : Nat) : String :=
  "<fs id=\"s-CHAINE-" ++ toString c ++ "-fs\"><f name=\"REF\"><string>"
    ++ refLiteral ++ "</string></f><f name=\"NB MAILLONS\"><string>"
    ++ toString len ++ "</string></f></fs>"

/-- The Schema pass of `_build_urs`: chain index `c` and mention-id
`offset` both advance per cluster; each cluster contributes its `<link>`
and its `<fs>`. -/
def chainPieces : Nat → Nat → List Cluster → List (String × String)
  | _, _, [] => []
  | c, offset, cl :: cls =>
    (chainLink c (chainTarget offset cl.length), chainFs c cl.length)
      :: chainPieces (c + 1) (offset + cl.length) cls

/-- `_build_urs(doc, first)`: compute the referent names (whose failure,
an `IndexError` on an empty cluster, aborts the build — note the names
are never interpolated into the output because of the missing `f`
prefixes), run the Unit pass and the Schema pass, and assemble the
stand-off document exactly as the source concatenates it. -/
def buildUrs (doc : Doc) (first : Bool) : Option String :=
  match getRefnames doc first with
  | none => none
  | some _names =>
    match allSpanPieces 0 doc.clusters with
    | none => none
    | some blocks =>
      let res1 := "<annotationGrp type=\"Unit\" subtype=\"MENTION\">"
        ++ String.join (blocks.map (fun b => String.join (b.map (fun x => x.2.1))))
        ++ "</annotationGrp>"
      let div1 := "<div type=\"unit-fs\">"
        ++ String.join (blocks.map (fun b => String.join (b.map (fun x => x.2.2))))
        ++ "</div>"
      let chains := chainPieces 0 0 doc.clusters
      let res2 := "<annotationGrp type=\"Schema\" subtype=\"CHAINE\">"
        ++ String.join (chains.map (fun x => x.1)) ++ "</annotationGrp>"
      let div2 := "<div type=\"relation-fs\"/>"
      let div3 := "<div type=\"schema-fs\">"
        ++ String.join (chains.map (fun x => x.2)) ++ "</div>"
      some ("<standOff><annotations type=\"coreference\">"
        ++ (res1 ++ res2) ++ (div1 ++ div2 ++ div3) ++ "</annotations></standOff>")

/-- `_get_teis(doc, xml_text, xml_urs)`: the shared header and the two
complete documents. -/
def getTeis (doc : Doc) (xmlText xmlUrs : String) : String × String :=
  let header := "<teiHeader><fileDesc><titleStmt><title>" ++ doc.doc_key
    ++ "</title></titleStmt></fileDesc></teiHeader>"
  ("<?xml version=\"1.0\" encoding=\"UTF-8\"?>"
     ++ "<TEI xmlns=\"http://www.tei-c.org/ns/1.0\" xmlns:txm=\"http://textometrie.org/1.0\">"
     ++ header ++ xmlText ++ "</TEI>",
   "<?xml version=\"1.0\" encoding=\"UTF-8\"?>"
     ++ "<tei:TEI xmlns:tei=\"http://www.tei-c.org/ns/1.0\">"
     ++ header ++ "<text></text>" ++ xmlUrs ++ "</tei:TEI>")

/-- The pair of rendered documents for one input document, as assembled
by `jsonlines2tei` before writing; `none` when `_build_urs` raises. -/
def teiPair (doc : Doc) (first : Bool) : Option (String × String) :=
  (buildUrs doc first).map (fun urs => getTeis doc (buildText doc) urs)

/-- The mention counter values allocated to cluster `c` by the Unit pass
(read off the loop), or `none` when the pass raises or there is no such
cluster. -/
def unitIdsAt (cls : List Cluster) (c : Nat) : Option (List Nat) :=
  (allSpanPieces 0 cls).map (fun blocks => (blocks.getD c []).map (fun x => x.1))

/-- Sum of the mention counts of the clusters before index `c`: the value
both loop counters (`m` of the Unit pass, `offset` of the Schema pass)
hold when they reach cluster `c`. -/
def offsetOf (cls : List Cluster) (c : Nat) : Nat :=
  ((cls.take c).map List.length).sum

/-- Character class of the regex `[^-a-zA-Z0-9_]` in `jsonlines2tei`:
`true` for the characters the sanitizer keeps. -/
def isKeptChar (c : Char) : Bool :=
  c = '-' || ('a' ≤ c && c ≤ 'z') || ('A' ≤ c && c ≤ 'Z')
    || ('0' ≤ c && c ≤ '9') || c = '_'

/-- One step of `re.sub(r'[^-a-zA-Z0-9_]', '_', fn)`. -/
def sanitizeChar (c : Char) : Char := if isKeptChar c then c else '_'

/-- `re.sub(r'_+', '_', fn)`: collapse every maximal run of underscores
into a single underscore.  The flag records whether the previous output
character was an underscore (i.e. whether we are inside a run). -/
def collapseUnd : Bool → List Char → List Char
  | _, [] => []
  | inRun, c :: rest =>
    if c = '_' then
      if inRun then collapseUnd true rest
      else '_' :: collapseUnd true rest
    else c :: collapseUnd false rest

/-- The filename stem derived from `doc_key` by `jsonlines2tei`: replace
every character outside `[-a-zA-Z0-9_]` with `_`, then collapse runs of
`_`. -/
def sanitize (dk : String) : String :=
  String.mk (collapseUnd false (dk.data.map sanitizeChar))

/-- The two file names written for one document (relative to the two
output directories): `<stem>.xml` and `<stem>-urs.xml`. -/
def outputFilenames (dk : String) : String × String :=
  (sanitize dk ++ ".xml", sanitize dk ++ "-urs.xml")

/-- Scans a character list for raw XML-escapable characters: `false` as
soon as a `<` or `>` occurs, or an `&` that does not begin one of the
entities `&amp;` `&lt;` `&gt;`; `true` when no raw occurrence exists. -/
def noRawEscapables : List Char → Bool
  | [] => true
  | c :: rest =>
    if c = '<' || c = '>' then false
    else if c = '&' then
      match rest with
      | 'a' :: 'm' :: 'p' :: ';' :: rest2 => noRawEscapables rest2
      | 'l' :: 't' :: ';' :: rest2 => noRawEscapables rest2
      | 'g' :: 't' :: ';' :: rest2 => noRawEscapables rest2
      | _ => false
    else noRawEscapables rest

/-- No two adjacent characters of the list are both underscores. -/
def noDoubleUnd : List Char → Bool
  | [] => true
  | [_] => true
  | c1 :: c2 :: rest => !(c1 = '_' && c2 = '_') && noDoubleUnd (c2 :: rest)

/-- Well-formedness of the cluster list per the input contract (spec
§3): every mention is a `[start, end]` pair, i.e. an integer array of
length exactly two. -/
def WfClusters (cls : List Cluster) : Prop :=
  ∀ cl ∈ cls, ∀ m ∈ cl, m.length = 2

instance (cls : List Cluster) : Decidable (WfClusters cls) := by
  unfold WfClusters; infer_instance

/-- Modelled from the claim's wording of the paragraph rule (spec §4.2):
the break check runs after emitting each token — whenever the index just
emitted is a boundary and the current paragraph is not the last, close
and reopen the paragraph at that point.  Everything else (element shapes,
counters, the `p < len(pars)-1` reading of "not the last paragraph")
follows the code.  Returns the rendered tokens of one sentence together
with the final token counter and break counter. -/
def claimTokenLoop (posOpt : Option (List (List String))) (pars : Option (List Nat))
    (s : Nat) : List String → Nat → Nat → Nat → String × Nat × Nat
  | [], _, t, p => ("", t, p)
  | tok :: rest, t_local, t, p =>
    let w := wPiece posOpt s t_local t tok
    let doBrk :=
      match pars with
      | some ps => decide (t ∈ ps ∧ p < ps.length - 1)
      | none => false
    let tail := claimTokenLoop posOpt pars s rest (t_local + 1) (t + 1)
      (if doBrk then p + 1 else p)
    (w ++ (if doBrk then "</p><p>" else "") ++ tail.1, tail.2)

/-- Modelled from the claim's wording: the sentence loop over
`claimTokenLoop`. -/
def claimSentLoop (posOpt : Option (List (List String))) (pars : Option (List Nat)) :
    List (List String) → Nat → Nat → Nat → String
  | [], _, _, _ => ""
  | sent :: rest, s, t, p =>
    let body := claimTokenLoop posOpt pars s sent 0 t p
    "<s n=\"" ++ toString s ++ "\">" ++ body.1 ++ "</s>"
      ++ claimSentLoop posOpt pars rest (s + 1) body.2.1 body.2.2

/-- Modelled from the claim's wording: the Text Renderer with the
paragraph check performed after every token rather than after every
sentence. -/
def claimBuildText (doc : Doc) : String :=
  "<text>" ++ "<p>"
    ++ claimSentLoop doc.pos (parsOf doc) doc.sentences 0 0 0
    ++ "</p>" ++ "</text>"

/-- Document with two clusters whose candidate names collide ("A" and
"A"): the dedup scenario of the spec. -/
def collideDoc : Doc :=
  { doc_key := "d"
    sentences := [["A"]]
    clusters := [[[0, 0]], [[0, 0]]] }

/-- Document whose single cluster has a short first mention and a longer
second mention: tokens "A" "B" "C", mentions [0,0] (1 token) and [1,2]
(2 tokens). -/
def longestDoc : Doc :=
  { doc_key := "d"
    sentences := [["A", "B", "C"]]
    clusters := [[[0, 0], [1, 2]]] }

/-- The scenario document of spec §8: two sentences, one cluster of two
mentions. -/
def scenarioDoc : Doc :=
  { doc_key := "d1"
    sentences := [["A", "B"], ["C"]]
    clusters := [[[0, 0], [2, 2]]] }

/-- Document with paragraph boundary indices 0 and 2: boundary 0 falls in
the middle of the first sentence, boundary 2 on the last token. -/
def midParDoc : Doc :=
  { doc_key := "d"
    sentences := [["A", "B"], ["C"]]
    paragraphs := some [(1, 0), (1, 2)]
    clusters := [] }

/-- Document with one empty cluster. -/
def emptyClusterDoc : Doc :=
  { doc_key := "d"
    sentences := [["A"]]
    clusters := [[]] }

lemma whileAppend_of_mem (used : List String) (fuel : Nat) (name : String)
    (counter : Nat) (h : name ∈ used) :
    whileAppend used fuel name counter = name := by
  cases fuel with
  | zero => rfl
  | succ n => simp [whileAppend, h]

/-- The deduplication pass of `_get_refnames` is the identity: the inner
`while` loop's condition is the negation of the guard under which it is
reached, so no name is ever rewritten. -/
lemma dedupPass_eq_id (names : List String) :
    ∀ used : List String, dedupPass used names = names := by
  induction names with
  | nil => intro used; rfl
  | cons name rest ih =>
    intro used
    by_cases h : name ∈ used
    · simp [dedupPass, h, whileAppend_of_mem used _ name 1 h, ih]
    · simp [dedupPass, h, ih]

/-- C1: the claim is false of the code and describes its evident intent.
Referent-name deduplication never happens: the `while name not in used`
loop sits under the guard `if name in used`, so its condition is false on
entry and the suffixing body is dead code.  The pass returns every
candidate name unchanged (first conjunct); on a document with two
clusters whose candidates are both "A", `_get_refnames` returns the
colliding mapping ["A", "A"] — one distinct name for two clusters —
instead of the claimed ["A", "A1"]. -/
theorem c1_dedup_is_noop :
    (∀ used names : List String, dedupPass used names = names)
    ∧ getRefnames collideDoc true = some ["A", "A"]
    ∧ (getRefnames collideDoc true).map (fun l => l.dedup.length) = some 1
    ∧ collideDoc.clusters.length = 2 := by
  refine ⟨fun used names => dedupPass_eq_id names used, ?_, ?_, ?_⟩
  · decide
  · decide
  · decide

/-- C3: the claim is false of the code and describes its evident intent
(the helper is named `get_longest` and the docstring promises the longest
mention).  The sort key is `len(x)` where `x` is the raw two-element
`[start, end]` array, so every mention has key 2 and the stable sort
leaves the cluster unchanged: the mode returns the FIRST mention's text.
On tokens "A" "B" "C" with mentions [0,0] (1 token) and [1,2] (2 tokens)
it names the cluster "A", not the longest mention's text "B C". -/
theorem c3_longest_picks_first :
    candidateLongest (docTokens longestDoc) [[0, 0], [1, 2]] = some "A"
    ∧ candidateFirst (docTokens longestDoc) [[0, 0], [1, 2]] = some "A"
    ∧ getRefnames longestDoc false = some ["A"]
    ∧ spaceJoin (pySlice (docTokens longestDoc) 1 (2 + 1)) = "B C"
    ∧ some "A" ≠ some "B C" := by
  refine ⟨?_, ?_, ?_, ?_, ?_⟩ <;> decide

set_option maxRecDepth 8192 in
/-- C2: the claim is false of the code and describes its evident intent.
In both `div += ...` statements of `_build_urs` the second line of the
implicit string concatenation lacks the `f` prefix, so every `REF`
feature — per mention and per chain — carries the verbatim source text
`refLiteral` (braces included) instead of the cluster's referent name.
On the scenario document the referent name is "A" (first conjunct), yet
the full stand-off output (second conjunct, evaluated) carries
`refLiteral` in all three feature structures, and `refLiteral` is not the
escaped referent name (third conjunct). -/
theorem c2_ref_is_verbatim_literal :
    getRefnames scenarioDoc true = some ["A"]
    ∧ buildUrs scenarioDoc true = some
      ("<standOff><annotations type=\"coreference\"><annotationGrp type=\"Unit\" subtype=\"MENTION\"><span id=\"u-MENTION-0\" from=\"text:w_export_0\" to=\"text:w_export_0\" ana=\"#u-MENTION-0-fs\"/><span id=\"u-MENTION-1\" from=\"text:w_export_2\" to=\"text:w_export_2\" ana=\"#u-MENTION-1-fs\"/></annotationGrp><annotationGrp type=\"Schema\" subtype=\"CHAINE\"><link id=\"s-CHAINE-0\" target=\"#u-MENTION-0 #u-MENTION-1\" ana=\"#s-CHAINE-0-fs\"/></annotationGrp><div type=\"unit-fs\"><fs id=\"u-MENTION-0-fs\"><f name=\"REF\"><string>"
        ++ refLiteral
        ++ "</string></f></fs><fs id=\"u-MENTION-1-fs\"><f name=\"REF\"><string>"
        ++ refLiteral
        ++ "</string></f></fs></div><div type=\"relation-fs\"/><div type=\"schema-fs\"><fs id=\"s-CHAINE-0-fs\"><f name=\"REF\"><string>"
        ++ refLiteral
        ++ "</string></f><f name=\"NB MAILLONS\"><string>2</string></f></fs></div></annotations></standOff>")
    ∧ refLiteral ≠ escape "A" := by
  refine ⟨by decide, by decide, by decide⟩

lemma collapseUnd_subset {c : Char} :
    ∀ (l : List Char) (b : Bool), c ∈ collapseUnd b l → c ∈ l := by
  intro l
  induction l with
  | nil => intro b h; simp [collapseUnd] at h
  | cons a rest ih =>
    intro b h
    by_cases ha : a = '_'
    · subst ha
      cases b with
      | true =>
        refine List.mem_cons_of_mem _ (ih true ?_)
        simpa [collapseUnd] using h
      | false =>
        simp only [collapseUnd, if_pos rfl] at h
        rcases List.mem_cons.mp h with h1 | h2
        · exact List.mem_cons.mpr (Or.inl h1)
        · exact List.mem_cons_of_mem _ (ih true h2)
    · simp only [collapseUnd, if_neg ha] at h
      rcases List.mem_cons.mp h with h1 | h2
      · exact List.mem_cons.mpr (Or.inl h1)
      · exact List.mem_cons_of_mem _ (ih false h2)

lemma collapseUnd_head_ne (l : List Char) :
    (collapseUnd true l).head? ≠ some '_' := by
  induction l with
  | nil => simp [collapseUnd]
  | cons a rest ih =>
    by_cases ha : a = '_'
    · subst ha
      show (collapseUnd true rest).head? ≠ some '_'
      exact ih
    · simp [collapseUnd, ha]

lemma noDoubleUnd_collapseUnd : ∀ (l : List Char) (b : Bool),
    noDoubleUnd (collapseUnd b l) = true := by
  intro l
  induction l with
  | nil => intro b; rfl
  | cons a rest ih =>
    intro b
    by_cases ha : a = '_'
    · subst ha
      cases b with
      | true => simpa [collapseUnd] using ih true
      | false =>
        simp only [collapseUnd, if_pos rfl]
        have hh := collapseUnd_head_ne rest
        have ht := ih true
        cases hX : collapseUnd true rest with
        | nil => rfl
        | cons c2 r =>
          rw [hX] at hh ht
          have hc2 : ¬(c2 = '_') := by
            intro hc; exact hh (by simp [hc])
          simp [noDoubleUnd, hc2, ht]
    · simp only [collapseUnd, if_neg ha]
      have ht := ih false
      cases hX : collapseUnd false rest with
      | nil => simp [noDoubleUnd]
      | cons c2 r =>
        rw [hX] at ht
        simp [noDoubleUnd, ha, ht]

lemma isKeptChar_sanitizeChar (c : Char) : isKeptChar (sanitizeChar c) = true := by
  unfold sanitizeChar
  by_cases h : isKeptChar c = true
  · rw [if_pos h]; exact h
  · rw [if_neg h]; decide

/-- C9: confirmed.  The output names are the sanitized stem with the two
fixed suffixes; the sanitizer replaces every character outside
`[-a-zA-Z0-9_]` with `_` and collapses runs (the stem contains only kept
characters and never two adjacent underscores); and the worked instance
`"nw/docname:01"` yields stem `"nw_docname_01"`. -/
theorem c9_filename_sanitization :
    (∀ dk : String, outputFilenames dk = (sanitize dk ++ ".xml", sanitize dk ++ "-urs.xml"))
    ∧ sanitize "nw/docname:01" = "nw_docname_01"
    ∧ (∀ dk : String,
        (sanitize dk).data.all (fun c => isKeptChar c) = true
        ∧ noDoubleUnd (sanitize dk).data = true) := by
  refine ⟨fun dk => rfl, by decide, fun dk => ⟨?_, ?_⟩⟩
  · rw [List.all_eq_true]
    intro c hc
    have hc2 : c ∈ dk.data.map sanitizeChar := collapseUnd_subset _ _ hc
    rcases List.mem_map.mp hc2 with ⟨c0, _, rfl⟩
    exact isKeptChar_sanitizeChar c0
  · exact noDoubleUnd_collapseUnd _ _

lemma noRawEscapables_escapeCharL (c : Char) (l : List Char) :
    noRawEscapables (escapeCharL c ++ l) = noRawEscapables l := by
  by_cases h1 : c = '&'
  · subst h1; simp [escapeCharL, noRawEscapables]
  · by_cases h2 : c = '<'
    · subst h2; simp [escapeCharL, noRawEscapables]
    · by_cases h3 : c = '>'
      · subst h3; simp [escapeCharL, noRawEscapables]
      · simp only [escapeCharL, if_neg h1, if_neg h2, if_neg h3, List.singleton_append]
        rw [noRawEscapables.eq_def]
        simp [h1, h2, h3]

lemma noRawEscapables_flatMap (l : List Char) :
    noRawEscapables (l.flatMap escapeCharL) = true := by
  induction l with
  | nil => rfl
  | cons c rest ih =>
    rw [List.flatMap_cons, noRawEscapables_escapeCharL]
    exact ih

/-- C10: confirmed.  The escape function leaves no raw escapable
character in its output — scanning the escaped text finds no `<`, no
`>`, and every `&` opening one of the three entities (first conjunct);
the three characters map to their entity references (middle conjuncts);
and the `<w>` element of the Text Renderer inserts token text and POS
tag text only through `escape` (last conjunct, by definition of the
renderer). -/
theorem c10_escaping :
    (∀ s : String, noRawEscapables (escape s).data = true)
    ∧ escape "&" = "&amp;" ∧ escape "<" = "&lt;" ∧ escape ">" = "&gt;"
    ∧ (∀ (posOpt : Option (List (List String))) (s t_local t : Nat) (tok : String),
        wPiece posOpt s t_local t tok
          = "<w id=\"w_export_" ++ toString t ++ "\" n=\"" ++ toString t ++ "\">"
              ++ formElem (escape tok)
              ++ (match posOpt with
                  | some pos => anaElem (escape ((pos.getD s []).getD t_local ""))
                  | none => "")
              ++ "</w>") := by
  refine ⟨fun s => noRawEscapables_flatMap s.data, by decide, by decide, by decide,
    fun posOpt s t_local t tok => rfl⟩

lemma insertByLenDesc_of_le (m : Mention) :
    ∀ l : Cluster, (∀ y ∈ l, ¬m.length < y.length) → insertByLenDesc m l = m :: l := by
  intro l h
  cases l with
  | nil => rfl
  | cons y ys =>
    have : ¬m.length < y.length := h y (List.mem_cons_self y ys)
    simp [insertByLenDesc, this]

/-- When all mentions of a cluster have the same raw array length — as
the `[start, end]` pairs of the input contract do — the stable sort by
descending length is the identity. -/
lemma sortedByLenDesc_of_const (cluster : Cluster)
    (h : ∀ m ∈ cluster, m.length = 2) : sortedByLenDesc cluster = cluster := by
  induction cluster with
  | nil => rfl
  | cons m rest ih =>
    have hrest : ∀ x ∈ rest, x.length = 2 := fun x hx => h x (List.mem_cons_of_mem m hx)
    rw [sortedByLenDesc, ih hrest]
    refine insertByLenDesc_of_le m rest (fun y hy => ?_)
    rw [h m (List.mem_cons_self m rest), hrest y hy]
    omega

lemma candidateLongest_eq_candidateFirst (toks : List String) (cluster : Cluster)
    (h : ∀ m ∈ cluster, m.length = 2) :
    candidateLongest toks cluster = candidateFirst toks cluster := by
  rw [candidateLongest, sortedByLenDesc_of_const cluster h, candidateFirst]

lemma optionMap_congr {f g : α → Option β} :
    ∀ l : List α, (∀ a ∈ l, f a = g a) → optionMap f l = optionMap g l := by
  intro l
  induction l with
  | nil => intro _; rfl
  | cons a rest ih =>
    intro h
    rw [optionMap, optionMap, h a (List.mem_cons_self a rest),
      ih (fun x hx => h x (List.mem_cons_of_mem a hx))]

/-- C7: confirmed.  On well-formed input (every mention a two-element
array) the FIRST and LONGEST modes of `_get_refnames` return the same
mapping — the sort key `len(x)` is the constant 2 on `[start, end]`
pairs, so the stable sort leaves the first mention in front — and the
rendered output pair of the whole converter is therefore identical under
both mode flags. -/
theorem c7_mode_independence (doc : Doc) (hw : WfClusters doc.clusters) :
    getRefnames doc true = getRefnames doc false
    ∧ teiPair doc true = teiPair doc false := by
  have hnames : getRefnames doc true = getRefnames doc false := by
    rw [getRefnames, getRefnames, if_pos rfl, if_neg (by simp)]
    refine congrArg (Option.map (dedupPass []))
      (optionMap_congr doc.clusters (fun cl hcl => ?_)).symm
    exact candidateLongest_eq_candidateFirst _ cl (hw cl hcl)
  have hurs : buildUrs doc true = buildUrs doc false := by
    rw [buildUrs, buildUrs, hnames]
  exact ⟨hnames, by rw [teiPair, teiPair, hurs]⟩

/-- A witness document for C7: the scenario document is well-formed and
renders identically in both modes. -/
theorem c7_mode_independence_witness :
    WfClusters scenarioDoc.clusters
    ∧ (getRefnames scenarioDoc true = getRefnames scenarioDoc false
       ∧ teiPair scenarioDoc true = teiPair scenarioDoc false) :=
  ⟨by decide, c7_mode_independence scenarioDoc (by decide)⟩

lemma optionMap_eq_none_iff {f : α → Option β} :
    ∀ l : List α, (optionMap f l = none ↔ ∃ a ∈ l, f a = none) := by
  intro l
  induction l with
  | nil => simp [optionMap]
  | cons a rest ih =>
    rw [optionMap]
    cases hfa : f a with
    | none => simp [hfa]
    | some b =>
      cases hrest : optionMap f rest with
      | none =>
        simp only [List.exists_mem_cons_iff, hfa]
        simpa [hrest] using ih.mp hrest
      | some bs =>
        have : ¬∃ x ∈ rest, f x = none := fun hex => by
          rw [ih.mpr hex] at hrest; exact Option.noConfusion hrest
        simp only [List.exists_mem_cons_iff, hfa]
        simpa using this

lemma mem_insertByLenDesc {x m : Mention} :
    ∀ l : Cluster, x ∈ insertByLenDesc m l → x = m ∨ x ∈ l := by
  intro l
  induction l with
  | nil =>
    intro h
    simp only [insertByLenDesc, List.mem_singleton] at h
    exact Or.inl h
  | cons y ys ih =>
    intro h
    rw [insertByLenDesc] at h
    by_cases hc : m.length < y.length
    · rw [if_pos hc] at h
      rcases List.mem_cons.mp h with h1 | h2
      · exact Or.inr (List.mem_cons.mpr (Or.inl h1))
      · rcases ih h2 with h3 | h4
        · exact Or.inl h3
        · exact Or.inr (List.mem_cons_of_mem y h4)
    · rw [if_neg hc] at h
      rcases List.mem_cons.mp h with h1 | h2
      · exact Or.inl h1
      · exact Or.inr h2

lemma mem_sortedByLenDesc {x : Mention} :
    ∀ cluster : Cluster, x ∈ sortedByLenDesc cluster → x ∈ cluster := by
  intro cluster
  induction cluster with
  | nil => intro h; simp [sortedByLenDesc] at h
  | cons m rest ih =>
    intro h
    rcases mem_insertByLenDesc _ h with h1 | h2
    · exact h1 ▸ List.mem_cons_self m rest
    · exact List.mem_cons_of_mem m (ih h2)

lemma length_insertByLenDesc (m : Mention) :
    ∀ l : Cluster, (insertByLenDesc m l).length = l.length + 1 := by
  intro l
  induction l with
  | nil => rfl
  | cons y ys ih =>
    rw [insertByLenDesc]
    by_cases hc : m.length < y.length
    · rw [if_pos hc]; simp [ih]
    · rw [if_neg hc]; simp

lemma length_sortedByLenDesc :
    ∀ cluster : Cluster, (sortedByLenDesc cluster).length = cluster.length := by
  intro cluster
  induction cluster with
  | nil => rfl
  | cons m rest ih => rw [sortedByLenDesc, length_insertByLenDesc, ih, List.length_cons]

lemma candidateFirst_eq_none_iff (toks : List String) (cluster : Cluster)
    (h : ∀ m ∈ cluster, m.length = 2) :
    (candidateFirst toks cluster = none ↔ cluster = []) := by
  cases cluster with
  | nil => simp [candidateFirst]
  | cons m rest =>
    rcases List.length_eq_two.mp (h m (List.mem_cons_self m rest)) with ⟨a, b, rfl⟩
    simp [candidateFirst]

lemma candidateLongest_eq_none_iff (toks : List String) (cluster : Cluster)
    (h : ∀ m ∈ cluster, m.length = 2) :
    (candidateLongest toks cluster = none ↔ cluster = []) := by
  rw [candidateLongest]
  cases hs : sortedByLenDesc cluster with
  | nil =>
    have : cluster.length = 0 := by
      rw [← length_sortedByLenDesc cluster, hs]; rfl
    simp [List.length_eq_zero.mp this]
  | cons m rest =>
    have hm : m ∈ cluster :=
      mem_sortedByLenDesc cluster (hs ▸ List.mem_cons_self m rest)
    rcases List.length_eq_two.mp (h m hm) with ⟨a, b, rfl⟩
    have : cluster ≠ [] := by
      intro hc; rw [hc] at hs; exact List.noConfusion (hs.symm.trans rfl)
    simp [this]

/-- C8: confirmed.  On well-formed input (every mention a two-element
array), `_get_refnames` raises — modelled as `none` — exactly when some
cluster is empty: both modes index `cluster[0]` (directly, or after a
sort that permutes the cluster), which is out of bounds precisely for an
empty cluster, and succeeds for every document whose clusters are all
non-empty. -/
theorem c8_empty_cluster_crash (doc : Doc) (first : Bool)
    (hw : WfClusters doc.clusters) :
    (getRefnames doc first = none ↔ ∃ cl ∈ doc.clusters, cl = []) := by
  rw [getRefnames]
  cases first with
  | true =>
    rw [if_pos rfl, Option.map_eq_none']
    rw [optionMap_eq_none_iff doc.clusters]
    exact ⟨fun ⟨cl, hcl, hnone⟩ =>
        ⟨cl, hcl, (candidateFirst_eq_none_iff _ cl (hw cl hcl)).mp hnone⟩,
      fun ⟨cl, hcl, hnil⟩ =>
        ⟨cl, hcl, (candidateFirst_eq_none_iff _ cl (hw cl hcl)).mpr hnil⟩⟩
  | false =>
    rw [if_neg (by simp), Option.map_eq_none']
    rw [optionMap_eq_none_iff doc.clusters]
    exact ⟨fun ⟨cl, hcl, hnone⟩ =>
        ⟨cl, hcl, (candidateLongest_eq_none_iff _ cl (hw cl hcl)).mp hnone⟩,
      fun ⟨cl, hcl, hnil⟩ =>
        ⟨cl, hcl, (candidateLongest_eq_none_iff _ cl (hw cl hcl)).mpr hnil⟩⟩

/-- A witness for C8: the document with one empty cluster is (vacuously)
well-formed and makes `_get_refnames` fail in FIRST mode, while the
scenario document, whose clusters are all non-empty, succeeds. -/
theorem c8_empty_cluster_crash_witness :
    WfClusters emptyClusterDoc.clusters
    ∧ getRefnames emptyClusterDoc true = none
    ∧ WfClusters scenarioDoc.clusters
    ∧ getRefnames scenarioDoc false ≠ none :=
  ⟨by decide,
   (c8_empty_cluster_crash emptyClusterDoc true (by decide)).mpr (by decide),
   by decide,
   fun h => by
     have := (c8_empty_cluster_crash scenarioDoc false (by decide)).mp h
     revert this; decide⟩

lemma tokenPieces_get? (posOpt : Option (List (List String))) (s : Nat) :
    ∀ (sent : List String) (tl t j : Nat),
      (tokenPieces posOpt s sent tl t).get? j
        = (sent.get? j).map (fun tok => (t + j, wPiece posOpt s (tl + j) (t + j) tok)) := by
  intro sent
  induction sent with
  | nil => intro tl t j; simp [tokenPieces]
  | cons tok rest ih =>
    intro tl t j
    cases j with
    | zero => simp [tokenPieces]
    | succ j =>
      have h := ih (tl + 1) (t + 1) j
      simp only [tokenPieces, List.get?_cons_succ]
      rw [h]
      have h1 : t + 1 + j = t + (j + 1) := by omega
      have h2 : tl + 1 + j = tl + (j + 1) := by omega
      rw [h1, h2]

/-- The record the sentence loop holds for sentence `s`: the sentence
index is `s0 + s` and the token loop starts at the counter value
`t0` plus the total length of the sentences already processed. -/
lemma sentPieces_get?_struct (posOpt : Option (List (List String)))
    (pars : Option (List Nat)) :
    ∀ (sents : List (List String)) (s0 t0 p0 s : Nat), s < sents.length →
      ∃ brk : Bool,
        (sentPieces posOpt pars sents s0 t0 p0).get? s
          = some (s0 + s,
              tokenPieces posOpt (s0 + s) (sents.getD s []) 0
                (t0 + sumLen (sents.take s)),
              brk) := by
  intro sents
  induction sents with
  | nil => intro s0 t0 p0 s hs; simp at hs
  | cons sent rest ih =>
    intro s0 t0 p0 s hs
    cases s with
    | zero =>
      refine ⟨brkCond pars (t0 + sent.length) p0, ?_⟩
      simp [sentPieces, sumLen]
    | succ s =>
      have hs2 : s < rest.length := by simpa using hs
      obtain ⟨brk, h⟩ := ih (s0 + 1) (t0 + sent.length)
        (if brkCond pars (t0 + sent.length) p0 then p0 + 1 else p0) s hs2
      refine ⟨brk, ?_⟩
      simp only [sentPieces, List.get?_cons_succ]
      rw [h]
      have h1 : s0 + 1 + s = s0 + (s + 1) := by omega
      have h2 : t0 + sent.length + sumLen (rest.take s)
          = t0 + sumLen ((sent :: rest).take (s + 1)) := by
        simp [sumLen, List.take_succ_cons]
        omega
      rw [h1, h2]
      simp [List.getD_cons_succ]

/-- C4: confirmed.  The token id interpolated into the `<w>` element of
the token at sentence `s`, local position `t_local`, is the sum of the
lengths of the sentences before `s` plus `t_local` (first conjunct); the
emitted element is exactly `wPiece` at that counter value, which embeds
`w_export_` followed by that number (second conjunct); and the
Annotation Renderer resolves a raw `[a, b]` span against the same scheme,
emitting `from="text:w_export_a"` and `to="text:w_export_b"` (third
conjunct). -/
theorem c4_token_indexing (doc : Doc) (s t_local i a b : Nat)
    (hs : s < doc.sentences.length)
    (ht : t_local < (doc.sentences.getD s []).length) :
    wIdAt doc s t_local = some (sumLen (doc.sentences.take s) + t_local)
    ∧ wPieceAt doc s t_local
        = ((doc.sentences.getD s []).get? t_local).map
            (fun tok => wPiece doc.pos s t_local (sumLen (doc.sentences.take s) + t_local) tok)
    ∧ mentionSpan i a b
        = "<span id=\"u-MENTION-" ++ toString i ++ "\" from=\"text:w_export_" ++ toString a
            ++ "\" to=\"text:w_export_" ++ toString b ++ "\" ana=\"#u-MENTION-" ++ toString i
            ++ "-fs\"/>" := by
  obtain ⟨brk, h⟩ :=
    sentPieces_get?_struct doc.pos (parsOf doc) doc.sentences 0 0 0 s hs
  simp only [Nat.zero_add] at h
  have htok := tokenPieces_get? doc.pos s (doc.sentences.getD s [])
    0 (sumLen (doc.sentences.take s)) t_local
  simp only [Nat.zero_add] at htok
  have hid : wIdAt doc s t_local
      = ((tokenPieces doc.pos s (doc.sentences.getD s []) 0
          (sumLen (doc.sentences.take s))).get? t_local).map (fun y => y.1) := by
    unfold wIdAt
    rw [h]
  have hpc : wPieceAt doc s t_local
      = ((tokenPieces doc.pos s (doc.sentences.getD s []) 0
          (sumLen (doc.sentences.take s))).get? t_local).map (fun y => y.2) := by
    unfold wPieceAt
    rw [h]
  refine ⟨?_, ?_, rfl⟩
  · rw [hid, htok]
    cases htk : (doc.sentences.getD s []).get? t_local with
    | none =>
      exact absurd ht (by simpa using List.get?_eq_none.mp htk)
    | some tok => simp
  · rw [hpc, htok]
    cases htk : (doc.sentences.getD s []).get? t_local with
    | none => simp
    | some tok => simp

/-- A witness for C4 on the scenario document: sentence 1, local
position 0 — the token "C" — receives global id 2, and the span of the
mention `[2, 2]` points at `w_export_2`. -/
theorem c4_token_indexing_witness :
    (1 < scenarioDoc.sentences.length ∧ 0 < (scenarioDoc.sentences.getD 1 []).length)
    ∧ (wIdAt scenarioDoc 1 0 = some 2
       ∧ wPieceAt scenarioDoc 1 0
           = ((scenarioDoc.sentences.getD 1 []).get? 0).map
               (fun tok => wPiece scenarioDoc.pos 1 0 2 tok)
       ∧ mentionSpan 1 2 2
           = "<span id=\"u-MENTION-1\" from=\"text:w_export_2\" to=\"text:w_export_2\" ana=\"#u-MENTION-1-fs\"/>") :=
  ⟨by decide, c4_token_indexing scenarioDoc 1 0 1 2 2 (by decide) (by decide)⟩

lemma clusterSpanPieces_ids :
    ∀ (cluster : Cluster) (m0 : Nat), (∀ m ∈ cluster, m.length = 2) →
      ∃ ps, clusterSpanPieces m0 cluster = some ps
        ∧ ps.map (fun x => x.1) = (List.range cluster.length).map (fun j => j + m0) := by
  intro cluster
  induction cluster with
  | nil => intro m0 _; exact ⟨[], rfl, by simp⟩
  | cons m rest ih =>
    intro m0 h
    rcases List.length_eq_two.mp (h m (List.mem_cons_self m rest)) with ⟨a, b, rfl⟩
    obtain ⟨ps, hps, hids⟩ := ih (m0 + 1) (fun x hx => h x (List.mem_cons_of_mem _ hx))
    refine ⟨(m0, mentionSpan m0 a b, mentionFs m0) :: ps, ?_, ?_⟩
    · simp [clusterSpanPieces, hps]
    · simp only [List.map_cons, hids, List.length_cons, List.range_succ_eq_map,
        List.map_map, Nat.zero_add]
      congr 1
      apply List.map_congr_left
      intro j _
      simp only [Function.comp_apply]
      omega

/-- The Unit pass of `_build_urs` allocates to cluster `c` exactly the
contiguous block of mention counters starting at `m0` plus the total
mention count of the clusters before `c`. -/
lemma allSpanPieces_struct :
    ∀ (cls : List Cluster) (m0 : Nat), WfClusters cls →
      ∃ blocks, allSpanPieces m0 cls = some blocks
        ∧ ∀ c, c < cls.length →
            (blocks.getD c []).map (fun x => x.1)
              = (List.range (cls.getD c []).length).map
                  (fun j => j + (m0 + offsetOf cls c)) := by
  intro cls
  induction cls with
  | nil =>
    intro m0 _
    exact ⟨[], rfl, fun c hc => absurd hc (by simp)⟩
  | cons cl cls2 ih =>
    intro m0 hw
    obtain ⟨ps, hps, hids⟩ := clusterSpanPieces_ids cl m0 (hw cl (List.mem_cons_self cl cls2))
    obtain ⟨blocks, hb, hbs⟩ :=
      ih (m0 + cl.length) (fun x hx => hw x (List.mem_cons_of_mem _ hx))
    refine ⟨ps :: blocks, ?_, ?_⟩
    · simp [allSpanPieces, hps, hb]
    · intro c hc
      cases c with
      | zero => simpa [offsetOf] using hids
      | succ c =>
        have hc2 : c < cls2.length := by simpa using hc
        have hrec := hbs c hc2
        simp only [List.getD_cons_succ]
        rw [hrec]
        have hoff : m0 + cl.length + offsetOf cls2 c = m0 + offsetOf (cl :: cls2) (c + 1) := by
          simp only [offsetOf, List.take_succ_cons, List.map_cons, List.sum_cons]
          omega
        rw [hoff]

lemma chainPieces_get? :
    ∀ (cls : List Cluster) (c0 off0 c : Nat), c < cls.length →
      (chainPieces c0 off0 cls).get? c
        = some (chainLink (c0 + c)
              (chainTarget (off0 + offsetOf cls c) (cls.getD c []).length),
            chainFs (c0 + c) (cls.getD c []).length) := by
  intro cls
  induction cls with
  | nil => intro c0 off0 c hc; simp at hc
  | cons cl cls2 ih =>
    intro c0 off0 c hc
    cases c with
    | zero => simp [chainPieces, offsetOf]
    | succ c =>
      have hc2 : c < cls2.length := by simpa using hc
      have h := ih (c0 + 1) (off0 + cl.length) c hc2
      simp only [chainPieces, List.get?_cons_succ]
      rw [h]
      have h1 : c0 + 1 + c = c0 + (c + 1) := by omega
      have h2 : off0 + cl.length + offsetOf cls2 c
          = off0 + offsetOf (cl :: cls2) (c + 1) := by
        simp only [offsetOf, List.take_succ_cons, List.map_cons, List.sum_cons]
        omega
      rw [h1, h2]
      simp [List.getD_cons_succ]

/-- C5: confirmed.  For every well-formed document and cluster index `c`:
the Unit pass allocates to cluster `c` the contiguous block of global
mention counters starting at the total mention count of the previous
clusters (first conjunct, counters never reset across clusters); the
Schema pass emits for chain `c` a link whose target is built from the
same offset and a feature structure `chainFs c len` with `len` the
cluster's mention count (second conjunct); the link's `target` attribute
references exactly that block of ids (third conjunct); the number of
targets equals the mention count (fourth conjunct); and the emitted
feature structure carries `NB MAILLONS` equal to the mention count
(fifth conjunct). -/
theorem c5_chain_targets (doc : Doc) (c : Nat) (hw : WfClusters doc.clusters)
    (hc : c < doc.clusters.length) :
    unitIdsAt doc.clusters c
        = some ((List.range (doc.clusters.getD c []).length).map
            (fun j => j + offsetOf doc.clusters c))
    ∧ (chainPieces 0 0 doc.clusters).get? c
        = some (chainLink c
              (chainTarget (offsetOf doc.clusters c) (doc.clusters.getD c []).length),
            chainFs c (doc.clusters.getD c []).length)
    ∧ chainTarget (offsetOf doc.clusters c) (doc.clusters.getD c []).length
        = String.intercalate " "
            (((List.range (doc.clusters.getD c []).length).map
                (fun j => j + offsetOf doc.clusters c)).map
              (fun n => "#u-MENTION-" ++ toString n))
    ∧ ((List.range (doc.clusters.getD c []).length).map
          (fun j => j + offsetOf doc.clusters c)).length
        = (doc.clusters.getD c []).length
    ∧ chainFs c (doc.clusters.getD c []).length
        = "<fs id=\"s-CHAINE-" ++ toString c ++ "-fs\"><f name=\"REF\"><string>"
            ++ refLiteral ++ "</string></f><f name=\"NB MAILLONS\"><string>"
            ++ toString (doc.clusters.getD c []).length ++ "</string></f></fs>" := by
  obtain ⟨blocks, hb, hbs⟩ := allSpanPieces_struct doc.clusters 0 hw
  refine ⟨?_, ?_, ?_, by simp, rfl⟩
  · rw [unitIdsAt, hb, Option.map_some']
    rw [hbs c hc]
    simp
  · have h := chainPieces_get? doc.clusters 0 0 c hc
    simpa using h
  · rw [chainTarget]
    congr 1
    rw [List.map_map]
    apply List.map_congr_left
    intro j _
    simp [Function.comp]

/-- A witness for C5 on the scenario document (one cluster of two
mentions): mention counters [0, 1], one chain referencing both, fed by
`NB MAILLONS` 2. -/
theorem c5_chain_targets_witness :
    (WfClusters scenarioDoc.clusters ∧ 0 < scenarioDoc.clusters.length)
    ∧ (unitIdsAt scenarioDoc.clusters 0 = some [0, 1]
       ∧ (chainPieces 0 0 scenarioDoc.clusters).get? 0
           = some (chainLink 0 (chainTarget 0 2), chainFs 0 2)
       ∧ chainTarget 0 2 = "#u-MENTION-0 #u-MENTION-1"
       ∧ ([0, 1] : List Nat).length = 2
       ∧ chainFs 0 2
           = "<fs id=\"s-CHAINE-0-fs\"><f name=\"REF\"><string>"
               ++ refLiteral ++ "</string></f><f name=\"NB MAILLONS\"><string>2</string></f></fs>") :=
  ⟨by decide, c5_chain_targets scenarioDoc 0 (by decide) (by decide)⟩

/-- C6, counterexample: the claim reads the paragraph rule as a check
performed "after emitting a token"; the code performs it only after
emitting a whole sentence, testing the index of the sentence's last
token.  On a document with boundary indices 0 and 2 and sentences of
lengths 2 and 1, the per-token reading (`claimBuildText`, modelled from
the claim's words) breaks the paragraph inside the first sentence after
token 0, while the code (`buildText`) breaks only after the second
sentence — the two renderings differ. -/
theorem c6_paragraphs_counterexample :
    buildText midParDoc ≠ claimBuildText midParDoc := by
  decide

/-- The break flag the sentence loop stores for sentence `s` is the
sentence-end condition evaluated at the token counter after `s` (its
start value plus the lengths of sentences `0..s`) and at the number of
breaks already emitted. -/
lemma sentPieces_brk (posOpt : Option (List (List String)))
    (pars : Option (List Nat)) :
    ∀ (sents : List (List String)) (s0 t0 p0 s : Nat), s < sents.length →
      ((sentPieces posOpt pars sents s0 t0 p0).get? s).map (fun x => x.2.2)
        = some (brkCond pars (t0 + sumLen (sents.take (s + 1)))
            (p0 + ((sentPieces posOpt pars sents s0 t0 p0).take s).countP
              (fun x => x.2.2))) := by
  intro sents
  induction sents with
  | nil => intro s0 t0 p0 s hs; simp at hs
  | cons sent rest ih =>
    intro s0 t0 p0 s hs
    cases s with
    | zero =>
      simp only [sentPieces, List.get?_cons_zero, List.take_zero, List.countP_nil,
        Option.map_some', List.take_succ_cons, sumLen, List.map_cons, List.sum_cons,
        List.map_nil, List.sum_nil, Nat.add_zero]
    | succ s =>
      have hs2 : s < rest.length := by simpa using hs
      cases hb : brkCond pars (t0 + sent.length) p0 with
      | false =>
        have h := ih (s0 + 1) (t0 + sent.length) p0 s hs2
        simp only [sentPieces, List.get?_cons_succ, List.take_succ_cons,
          List.countP_cons, hb, if_false, Bool.false_eq_true, Nat.add_zero]
        rw [h]
        have harg : t0 + sent.length + sumLen (rest.take (s + 1))
            = t0 + sumLen (sent :: rest.take (s + 1)) := by
          simp only [sumLen, List.map_cons, List.sum_cons]
          omega
        rw [harg]
      | true =>
        have h := ih (s0 + 1) (t0 + sent.length) (p0 + 1) s hs2
        simp only [sentPieces, List.get?_cons_succ, List.take_succ_cons,
          List.countP_cons, hb, if_true]
        rw [h]
        have harg : t0 + sent.length + sumLen (rest.take (s + 1))
            = t0 + sumLen (sent :: rest.take (s + 1)) := by
          simp only [sumLen, List.map_cons, List.sum_cons]
          omega
        have harg2 : p0 + 1
              + ((sentPieces posOpt pars rest (s0 + 1) (t0 + sent.length) (p0 + 1)).take s).countP
                (fun x => x.2.2)
            = p0 + (((sentPieces posOpt pars rest (s0 + 1) (t0 + sent.length) (p0 + 1)).take s).countP
                (fun x => x.2.2) + 1) := by
          omega
        rw [harg, harg2]

/-- C6, amended: the Text Renderer performs the paragraph check once per
sentence, after emitting it, not after every token: it closes and
reopens the paragraph exactly when the global index of the last token
emitted so far (the running counter over sentences 0..s, minus one) is a
boundary index and fewer than (number of distinct boundary indices − 1)
breaks have been emitted; without boundary data no break is ever emitted
and the whole text is a single paragraph. -/
theorem c6_paragraphs_amended (doc : Doc) (s : Nat) (hs : s < doc.sentences.length) :
    brkAt doc s
      = some (brkCond (parsOf doc) (sumLen (doc.sentences.take (s + 1)))
          (breaksBefore doc s))
    ∧ (doc.paragraphs = none → brkAt doc s = some false) := by
  have h := sentPieces_brk doc.pos (parsOf doc) doc.sentences 0 0 0 s hs
  simp only [Nat.zero_add] at h
  constructor
  · rw [brkAt, h, breaksBefore]
  · intro hp
    have hpars : parsOf doc = none := by simp [parsOf, hp]
    rw [brkAt, h, hpars]
    simp [brkCond]

/-- A witness for the amended C6: on the boundary document the code
emits its (only) break after sentence 1, whose last token has global
index 2, a boundary. -/
theorem c6_paragraphs_amended_witness :
    (1 < midParDoc.sentences.length)
    ∧ (brkAt midParDoc 1 = some true
       ∧ (midParDoc.paragraphs = none → brkAt midParDoc 1 = some false)) :=
  ⟨by decide, c6_paragraphs_amended midParDoc 1 (by decide)⟩

end Jsonlines2tei
